import Mathlib

/-!
Verification development for the `iptools` terminal network toolbox.

This file gives a shallow embedding, in Lean 4, of the state and the pure
logic of the probing core of the repository:

* `src/modules/scanner.rs` — the subnet scanner (`ScannerModule`);
* `src/modules/diagnostics/ping.rs` — the ping engine (`PingTool`);
* `src/modules/traffic.rs` / `src/modules/adapter.rs` — the traffic sampler.

Rust machine integers (`u64`, `u32`) are modelled as `Nat`, with an explicit
`% 2 ^ 64` where the source relies on (release-mode) wraparound.  Stateful
code is modelled by explicit state passing: each Rust method that mutates
`&mut self` becomes a Lean function `State → State`.  Concurrency is modelled
by a small-step event vocabulary: the completion of an in-flight probe task
is one atomic event applied to the shared state (this is the quiescent view
that the single-threaded `update` tick observes).  Fallible parsing returns
`Option`.
-/

/-! ## Scanner data model (`src/modules/scanner.rs`) -/

/-- Embeds `ScanResult` (scanner.rs lines 16-21).  The IPv4 address is its
numeric `u32` value. -/
structure ScanResult where
  ip : Nat
  mac : String
  hostname : String
deriving DecidableEq

/-- Embeds `ScanStatus` (scanner.rs lines 23-28). -/
inductive ScanStatus where
  | Idle
  | Scanning
  | Done
deriving DecidableEq

/-- Embeds the scan-relevant state of `ScannerModule` (scanner.rs lines 30-43).
The tokio mpsc channel (`tx`/`rx`), created once in `new()` and never
replaced, is modelled as a FIFO queue `channel`; the `AtomicU64` completed
counter and the `Arc<Mutex<bool>>` abort flag are modelled by their values at
the quiescent points between events.  UI-only state (`table_state`,
`input_mode`) is omitted: no claim mentions it. -/
structure ScannerModule where
  cidrInput : String
  results : List ScanResult
  status : ScanStatus
  totalScanCount : Nat
  currentScanCount : Nat
  abortFlag : Bool
  channel : List ScanResult
deriving DecidableEq

/-- A `ScannerModule` as produced by `ScannerModule::new()` (scanner.rs lines
46-76) with cidr input `c`: empty results, `Idle`, both counters zero, abort
flag false, empty channel.  `new()` picks a default CIDR string from the OS
interface list (falling back to `"192.168.1.0/24"`), and the operator can
edit it afterwards with `inputChar`/`inputBackspace`, so the string is a
parameter here. -/
def freshScanner (c : String) : ScannerModule :=
  { cidrInput := c
    results := []
    status := ScanStatus.Idle
    totalScanCount := 0
    currentScanCount := 0
    abortFlag := false
    channel := [] }

/-- Embeds the input-mode `KeyCode::Char(c)` arm of `ScannerModule::on_key`
(scanner.rs lines 87-91): only ASCII digits, `.` and `/` are appended to the
CIDR input. -/
def inputChar (c : Char) (s : ScannerModule) : ScannerModule :=
  if c.isDigit ∨ c = '.' ∨ c = '/' then
    { s with cidrInput := s.cidrInput.push c }
  else s

/-- Embeds the input-mode `KeyCode::Backspace` arm of `ScannerModule::on_key`
(scanner.rs lines 84-86): `self.cidr_input.pop()` removes the last char. -/
def inputBackspace (s : ScannerModule) : ScannerModule :=
  { s with cidrInput := s.cidrInput.dropRight 1 }

/-! ## IPv4 / CIDR model (the `ipnetwork::Ipv4Network` values used by the
scanner)

The repository's `Cargo.toml` is not part of the provided sources, so the
exact pinned version of the `ipnetwork` crate is unknown; the crate's
behaviour is modelled here from its documented contract and, where the spec
pins it down, from the spec (see `sizeExact`). -/

/-- An `ipnetwork::Ipv4Network` value: a 32-bit address and a prefix length.
Constructed only through `parseIpv4Network`, which enforces `addr < 2 ^ 32`
and `prefixLen ≤ 32` (the crate's `Ipv4Network::new` rejects larger
prefixes); theorems that quantify over raw values carry those bounds as
hypotheses. -/
structure Ipv4Network where
  addr : Nat
  prefixLen : Nat
deriving DecidableEq

/-- Splits a character list on a separator character, keeping empty pieces,
like Rust's `str::split`. -/
def splitOnChar (sep : Char) : List Char → List (List Char)
  | [] => [[]]
  | c :: rest =>
    let r := splitOnChar sep rest
    if c = sep then [] :: r
    else
      match r with
      | h :: t => (c :: h) :: t
      | [] => [[c]]

/-- Parses a non-empty all-digit character list as a decimal `Nat`; `none`
otherwise. -/
def parseDecimal (cs : List Char) : Option Nat :=
  if cs = [] then none
  else if cs.all Char.isDigit then
    some (cs.foldl (fun a c => a * 10 + (c.toNat - 48)) 0)
  else none

/-- Parses one dotted-quad octet the way `std::net::Ipv4Addr::from_str` does:
decimal digits only, no leading zero (unless the octet is exactly `0`),
value at most 255. -/
def parseOctet (cs : List Char) : Option Nat :=
  match parseDecimal cs with
  | some v =>
    if v ≤ 255 ∧ (cs.length = 1 ∨ cs.head? ≠ some '0') then some v else none
  | none => none

/-- Parses a dotted-quad IPv4 address (`std::net::Ipv4Addr::from_str`):
exactly four octets separated by `.`, combined big-endian into a `u32`
value. -/
def parseIpv4Addr (cs : List Char) : Option Nat :=
  match (splitOnChar '.' cs).mapM parseOctet with
  | some [a, b, c, d] => some (((a * 256 + b) * 256 + c) * 256 + d)
  | _ => none

/-- Parses the prefix part the way `ipnetwork` does (`u8::from_str`, which
allows a leading `+` and leading zeros, then a range check). -/
def parsePrefixPart (cs : List Char) : Option Nat :=
  let cs := if cs.head? = some '+' then cs.drop 1 else cs
  match parseDecimal cs with
  | some v => if v ≤ 255 then some v else none
  | none => none

/-- Embeds `ipnetwork::Ipv4Network::from_str` as called at scanner.rs lines
130 and 140: an IPv4 address, optionally followed by `/` and a prefix length
at most 32 (`Ipv4Network::new` rejects prefixes above 32); a bare address
gets prefix 32.  Host bits may be set in the address; `networkAddr` masks
them off. -/
def parseIpv4Network (s : String) : Option Ipv4Network :=
  match splitOnChar '/' s.toList with
  | [a] => (parseIpv4Addr a).map (fun addr => { addr := addr, prefixLen := 32 })
  | [a, p] =>
    match parseIpv4Addr a, parsePrefixPart p with
    | some addr, some pre =>
      if pre ≤ 32 then some { addr := addr, prefixLen := pre } else none
    | _, _ => none
  | _ => none

/-- Modelled from the spec: the repository's `Cargo.toml` (and so the pinned
`ipnetwork` crate source) is not among the provided files, so
`Ipv4Network::size()` — documented as the number of possible host addresses
of the network — is modelled from the spec's host-capacity rule
(spec §8: host capacity is `2^(32-p)`): `sizeExact n = 2 ^ (32 - prefix)`. -/
def sizeExact (n : Ipv4Network) : Nat :=
  2 ^ (32 - n.prefixLen)

/-- The network address: the given address with its host bits cleared
(`Ipv4Network::network()`, i.e. `addr & mask`), expressed arithmetically as
rounding down to a multiple of the host-block size. -/
def networkAddr (n : Ipv4Network) : Nat :=
  n.addr / sizeExact n * sizeExact n

/-- The broadcast address: the last address of the network
(`Ipv4Network::broadcast()`). -/
def broadcastAddr (n : Ipv4Network) : Nat :=
  networkAddr n + sizeExact n - 1

/-- Embeds `Ipv4Network::iter()`: every address of the network in ascending
order, from the network address through the broadcast address. -/
def iterList (n : Ipv4Network) : List Nat :=
  List.range' (networkAddr n) (sizeExact n)

/-- Embeds the total-host-count computation of `ScannerModule::start_scan`
(scanner.rs lines 131-135, identically `calculate_ip_count` lines 263-268):
`size - 2` (saturating) below prefix 31, otherwise `size`. -/
def hostCount (n : Ipv4Network) : Nat :=
  if n.prefixLen < 31 then sizeExact n - 2 else sizeExact n

/-- Embeds the address enumeration of the spawned scan task (scanner.rs lines
141-149): below prefix 31, `iter().skip(1).take(size - 2)`; otherwise every
address. -/
def scanIps (n : Ipv4Network) : List Nat :=
  if n.prefixLen < 31 then ((iterList n).drop 1).take (sizeExact n - 2)
  else iterList n

/-- The addresses actually dispatched for a cidr string (scanner.rs lines
140-149): the spawned task re-parses the string and enumerates `scanIps`;
a failed parse dispatches nothing. -/
def scanDispatch (c : String) : List Nat :=
  match parseIpv4Network c with
  | some net => scanIps net
  | none => []

/-! ## Scanner state transitions -/

/-- Embeds the synchronous state mutations of `ScannerModule::start_scan`
(scanner.rs lines 117-137): clear results, enter `Scanning`, reset the
shared completed counter to 0, clear the abort flag, and — only if the CIDR
parses — store the precomputed total.  On a parse failure `total_scan_count`
is left unchanged.  The channel is untouched: `tx`/`rx` are created once in
`new()` and never recreated. -/
def startScan (s : ScannerModule) : ScannerModule :=
  let s1 := { s with
    results := []
    status := ScanStatus.Scanning
    currentScanCount := 0
    abortFlag := false }
  match parseIpv4Network s1.cidrInput with
  | some net => { s1 with totalScanCount := hostCount net }
  | none => s1

/-- Embeds one probe task (the async closure of scanner.rs lines 157-194) as
a pure function of what it observes: `a1`, `a2`, `a3` are the values the
task reads from the shared abort flag at its three checkpoints (line 158,
line 176, line 191); `mac` is the ARP outcome, `host` the reverse-DNS
outcome.  Returns the emitted result (sent into the channel, line 188), if
any, and the number of increments applied to the shared completed counter
(line 192). -/
def probeTask (a1 : Bool) (mac : Option String) (a2 : Bool)
    (host : Option String) (a3 : Bool) (ip : Nat) :
    Option ScanResult × Nat :=
  if a1 then (none, 0)
  else
    match mac with
    | some m =>
      if a2 then (none, 0)
      else
        let r : ScanResult := { ip := ip, mac := m, hostname := host.getD "" }
        if a3 then (some r, 0) else (some r, 1)
    | none =>
      if a3 then (none, 0) else (none, 1)

/-- The shared-state effect of one in-flight probe task finishing while the
abort flag holds a stable value (scanner.rs lines 157-194): if the flag is
set the task returns without bookkeeping; otherwise it pushes its emission
(if the ARP stage produced one) into the one-and-only result channel and
increments the one-and-only shared completed counter.  The task holds
`Arc` clones of the module's counter, flag and sender (lines 123, 126-127),
so this applies to the module's current state whichever run dispatched the
task. -/
def probeFinish (r : Option ScanResult) (s : ScannerModule) : ScannerModule :=
  if s.abortFlag then s
  else
    { s with
      channel := s.channel ++ r.toList
      currentScanCount := s.currentScanCount + 1 }

/-- Embeds the sort of `ScannerModule::update` (scanner.rs line 211):
`sort_by(|a, b| a.ip.cmp(&b.ip))`.  Rust's `slice::sort_by` contract is "a
permutation of the input, sorted by the comparator"; it is modelled by
insertion sort, which satisfies that contract and is structurally
recursive. -/
def sortResults (l : List ScanResult) : List ScanResult :=
  List.insertionSort (fun a b => a.ip ≤ b.ip) l

/-- Embeds `ScannerModule::update` (scanner.rs lines 203-226): drain every
available channel item into `results`; if anything was drained, re-sort the
whole result list by IP; then, if `Scanning`, transition to `Done` when the
total is positive and the completed counter has reached it, and (separately)
when the abort flag is set. -/
def updateStep (s : ScannerModule) : ScannerModule :=
  let drained := s.channel
  let newResults :=
    if drained.length > 0 then sortResults (s.results ++ drained) else s.results
  let s1 := { s with results := newResults, channel := [] }
  if s1.status = ScanStatus.Scanning then
    let s2 :=
      if s1.totalScanCount > 0 ∧ s1.currentScanCount ≥ s1.totalScanCount then
        { s1 with status := ScanStatus.Done }
      else s1
    if s2.abortFlag then { s2 with status := ScanStatus.Done } else s2
  else s1

/-- One tick-driven drain cycle observing a batch `b` of channel arrivals:
the channel holds `b`, then `update` runs (scanner.rs lines 203-226). -/
def drainCycle (s : ScannerModule) (b : List ScanResult) : ScannerModule :=
  updateStep { s with channel := b }

/-! ## Ping engine data model (`src/modules/diagnostics/ping.rs`) -/

/-- Embeds `PingConfig` (ping.rs lines 19-25). -/
structure PingConfig where
  target : String
  interval_ms : Nat
  timeout_ms : Nat
  packet_size : Nat
deriving DecidableEq

/-- Embeds `PingConfig::default()` (ping.rs lines 27-36). -/
def defaultPingConfig : PingConfig :=
  { target := "8.8.8.8", interval_ms := 1000, timeout_ms := 2000, packet_size := 32 }

/-- Embeds `PingStats` (ping.rs lines 38-50).  The two `VecDeque`s are lists
with the oldest element first. -/
structure PingStats where
  sent : Nat
  recv : Nat
  min_latency : Option Nat
  max_latency : Option Nat
  total_latency : Nat
  jitter_sum : Nat
  last_latency : Option Nat
  prev_latency : Option Nat
  history : List Nat
  logs : List String
deriving DecidableEq

/-- Embeds `PingStats::default()` (ping.rs lines 52-67). -/
def defaultPingStats : PingStats :=
  { sent := 0, recv := 0, min_latency := none, max_latency := none
    total_latency := 0, jitter_sum := 0, last_latency := none
    prev_latency := none, history := [], logs := [] }

/-- Embeds `PingEvent` (ping.rs lines 69-82). -/
inductive PingEvent where
  | Result (seq latency ttl sz : Nat)
  | Timeout (seq : Nat)
  | Error (msg : String)
deriving DecidableEq

/-- Embeds the shared bounded-history push pattern of `PingTool::update`
(ping.rs lines 158-161 for `Result`, identically lines 168-171 for
`Timeout`): when the ring already holds 100 samples the oldest is popped,
then the new sample is pushed at the back. -/
def pushHistory (h : List Nat) (x : Nat) : List Nat :=
  (if h.length ≥ 100 then h.drop 1 else h) ++ [x]

/-- Embeds `PingTool::add_log` (ping.rs lines 182-187): a 20-entry FIFO
ring of log lines. -/
def addLog (st : PingStats) (msg : String) : PingStats :=
  { st with logs := (if st.logs.length ≥ 20 then st.logs.drop 1 else st.logs) ++ [msg] }

/-- Embeds the `PingEvent::Result` arm of `PingTool::update` (ping.rs lines
119-165): bump the received count, derive `sent` from the sequence number,
fold min/max, accumulate total latency, accumulate `|latency - previous|`
into the jitter sum when a previous latency exists, remember last/previous,
push the latency into the history ring and append a log line. -/
def applyResult (st : PingStats) (seq latency ttl sz : Nat) : PingStats :=
  let st := { st with recv := st.recv + 1, sent := seq + 1 }
  let st := { st with
    min_latency :=
      match st.min_latency with
      | some mn => if latency < mn then some latency else some mn
      | none => some latency
    max_latency :=
      match st.max_latency with
      | some mx => if latency > mx then some latency else some mx
      | none => some latency }
  let st := { st with total_latency := st.total_latency + latency }
  let st := { st with
    jitter_sum :=
      match st.prev_latency with
      | some prev =>
        st.jitter_sum + (if latency > prev then latency - prev else prev - latency)
      | none => st.jitter_sum }
  let st := { st with prev_latency := some latency, last_latency := some latency }
  let st := { st with history := pushHistory st.history latency }
  addLog st s!"Seq={seq} bytes={sz} ttl={ttl} time={latency}ms"

/-- Embeds the `PingEvent::Timeout` arm of `PingTool::update` (ping.rs lines
166-173): derive `sent`, push the sentinel `0` into the history ring, log.
The received count is untouched. -/
def applyTimeout (st : PingStats) (seq : Nat) : PingStats :=
  let st := { st with sent := seq + 1 }
  let st := { st with history := pushHistory st.history 0 }
  addLog st s!"Seq={seq} Request timed out"

/-- Embeds the displayed average jitter of `PingTool::draw_dashboard`
(ping.rs lines 437-441): `jitter_sum / (recv - 1)` when more than one reply
was received, otherwise 0 (integer division). -/
def avgJitter (st : PingStats) : Nat :=
  if st.recv > 1 then st.jitter_sum / (st.recv - 1) else 0

/-- Folds a sequence of `Result` events, given as `(seq, latency, ttl, size)`
tuples, through the `Result` arm of `PingTool::update`. -/
def applyResults (st : PingStats) (ls : List (Nat × Nat × Nat × Nat)) : PingStats :=
  ls.foldl (fun s t => applyResult s t.1 t.2.1 t.2.2.1 t.2.2.2) st

/-- The jitter sum as the spec describes it (spec §4.2 and §8): the sum of
absolute differences of consecutive received latencies.  This is the
spec-side formula that `applyResults` is compared against; it is not
translated from the source. -/
def specJitterSum : List Nat → Nat
  | a :: b :: rest =>
    (if b > a then b - a else a - b) + specJitterSum (b :: rest)
  | _ => 0

/-! ## Ping tool interaction state (`PingTool`, config editing) -/

/-- The keys dispatched by `PingTool::handle_config_key` (ping.rs lines
209-227). -/
inductive PingKey where
  | down
  | up
  | left
  | right
  | backspace
  | char (c : Char)
  | other
deriving DecidableEq

/-- Embeds the interaction-relevant state of `PingTool` (ping.rs lines
88-97): the editable configuration, the running flag, and the selected row
of the config list (`config_state`). -/
structure PingToolState where
  config : PingConfig
  running : Bool
  configSelected : Option Nat
deriving DecidableEq

/-- Embeds `PingTool::next_config` (ping.rs lines 229-242): cycle the
selection downward over the 4 config rows. -/
def nextConfig (s : PingToolState) : PingToolState :=
  let i :=
    match s.configSelected with
    | some i => if i ≥ 3 then 0 else i + 1
    | none => 0
  { s with configSelected := some i }

/-- Embeds `PingTool::prev_config` (ping.rs lines 244-257). -/
def prevConfig (s : PingToolState) : PingToolState :=
  let i :=
    match s.configSelected with
    | some i => if i = 0 then 3 else i - 1
    | none => 0
  { s with configSelected := some i }

/-- Rust's `i64::clamp(lo, hi)`. -/
def intClamp (v lo hi : Int) : Int :=
  if v < lo then lo else if v > hi then hi else v

/-- Embeds `PingTool::edit_config_value` (ping.rs lines 259-270): a no-op
while running; otherwise, with the target row selected, append any ASCII
character to the target. -/
def editConfigValue (c : Char) (s : PingToolState) : PingToolState :=
  if s.running then s
  else
    match s.configSelected with
    | some 0 =>
      if c.toNat < 128 then
        { s with config := { s.config with target := s.config.target.push c } }
      else s
    | _ => s

/-- Embeds `PingTool::adjust_numeric_config` (ping.rs lines 272-293): a
no-op while running; otherwise step interval/timeout by `dir * 100` clamped
to `[100, 10000]`, or packet size by `dir * 8` clamped to `[0, 65500]`. -/
def adjustNumericConfig (dir : Int) (s : PingToolState) : PingToolState :=
  if s.running then s
  else
    match s.configSelected with
    | some 1 =>
      { s with config := { s.config with
          interval_ms := (intClamp ((s.config.interval_ms : Int) + dir * 100) 100 10000).toNat } }
    | some 2 =>
      { s with config := { s.config with
          timeout_ms := (intClamp ((s.config.timeout_ms : Int) + dir * 100) 100 10000).toNat } }
    | some 3 =>
      { s with config := { s.config with
          packet_size := (intClamp ((s.config.packet_size : Int) + dir * 8) 0 65500).toNat } }
    | _ => s

/-- Embeds `PingTool::handle_config_key` (ping.rs lines 209-227).  Note the
match order of the source: the characters `j`/`k`/`h`/`l` are captured by
the navigation/adjustment arms before the generic `Char` arm. -/
def handleConfigKey (k : PingKey) (s : PingToolState) : PingToolState :=
  match k with
  | PingKey.down => nextConfig s
  | PingKey.up => prevConfig s
  | PingKey.left => adjustNumericConfig (-1) s
  | PingKey.right => adjustNumericConfig 1 s
  | PingKey.backspace =>
    if s.configSelected = some 0 ∧ s.running = false then
      { s with config := { s.config with target := s.config.target.dropRight 1 } }
    else s
  | PingKey.char c =>
    if c = 'j' then nextConfig s
    else if c = 'k' then prevConfig s
    else if c = 'h' then adjustNumericConfig (-1) s
    else if c = 'l' then adjustNumericConfig 1 s
    else editConfigValue c s
  | PingKey.other => s

/-! ## Traffic sampler (`src/modules/traffic.rs`, `src/modules/adapter.rs`) -/

/-- Embeds `TrafficSnapshot` (traffic.rs lines 12-18; `TrafficStats` in
adapter.rs lines 14-20 is field-for-field the same).  The `Instant`
timestamp is a point on the wall clock, modelled in seconds as an exact
rational. -/
structure TrafficSnapshot where
  total_rx : Nat
  total_tx : Nat
  last_update : ℚ
  rx_speed : Nat
  tx_speed : Nat
deriving DecidableEq

/-- Rust release-mode `u64` subtraction `a - b`: wraparound modulo `2 ^ 64`
(for operands below `2 ^ 64`). -/
def u64wrapSub (a b : Nat) : Nat :=
  (a + 2 ^ 64 - b % 2 ^ 64) % 2 ^ 64

/-- The rate cast `(diff as f64 / duration) as u64` (traffic.rs lines
104-105, adapter.rs lines 56-57), with the `f64` arithmetic modelled exactly
over the rationals: a nonnegative real divided by a positive duration,
truncated toward zero. -/
def rateOf (diff : Nat) (duration : ℚ) : Nat :=
  (⌊(diff : ℚ) / duration⌋).toNat

/-- Embeds the per-adapter rate recomputation of `TrafficModule::update`
(traffic.rs lines 100-115) for an adapter already present in the history
map: if the elapsed time since the previous sample exceeds 0.1 s, compute
both rates from the counter differences (release-mode `u64` subtraction,
which wraps when the counter decreased), store the new snapshot; otherwise
keep the previous snapshot and reuse its rates.  Returns the stored snapshot
together with the `(rx_speed, tx_speed)` pair used for display. -/
def trafficRateStep (prev : TrafficSnapshot) (current_rx current_tx : Nat)
    (now : ℚ) : TrafficSnapshot × Nat × Nat :=
  let duration := now - prev.last_update
  if duration > 1 / 10 then
    let rx_speed := rateOf (u64wrapSub current_rx prev.total_rx) duration
    let tx_speed := rateOf (u64wrapSub current_tx prev.total_tx) duration
    ({ total_rx := current_rx, total_tx := current_tx, last_update := now
       rx_speed := rx_speed, tx_speed := tx_speed }, rx_speed, tx_speed)
  else (prev, prev.rx_speed, prev.tx_speed)

/-! ## Helper lemmas -/

/-- Folding pushes through the capacity-100 ring: starting from a ring
holding at most 100 samples, the ring ends up holding the last 100 elements
of `h0 ++ xs`. -/
theorem pushHistory_foldl (xs : List Nat) : ∀ h0 : List Nat, h0.length ≤ 100 →
    List.foldl pushHistory h0 xs = (h0 ++ xs).drop (h0.length + xs.length - 100) := by
  induction xs with
  | nil =>
    intro h0 hle
    simp [Nat.sub_eq_zero_of_le hle]
  | cons x t ih =>
    intro h0 hle
    rw [List.foldl_cons]
    by_cases hl : h0.length ≥ 100
    · have h100 : h0.length = 100 := Nat.le_antisymm hle hl
      have hph : pushHistory h0 x = h0.drop 1 ++ [x] := by
        simp [pushHistory, hl]
      have hlen' : (h0.drop 1 ++ [x]).length ≤ 100 := by
        simp [h100]
      rw [hph, ih _ hlen']
      have e1 : (h0.drop 1 ++ [x]).length + t.length - 100 = t.length := by
        simp only [List.length_append, List.length_drop, List.length_cons,
          List.length_nil, h100]
        omega
      have e2 : h0.length + (x :: t).length - 100 = t.length + 1 := by
        simp only [List.length_cons, h100]
        omega
      rw [e1, e2]
      obtain ⟨c, h0', rfl⟩ : ∃ c h0', h0 = c :: h0' := by
        cases h0 with
        | nil => simp at h100
        | cons c h0' => exact ⟨c, h0', rfl⟩
      simp [List.append_assoc]
    · have hph : pushHistory h0 x = h0 ++ [x] := by
        simp [pushHistory, hl]
      have hlen' : (h0 ++ [x]).length ≤ 100 := by
        simp only [List.length_append, List.length_cons, List.length_nil]
        omega
      rw [hph, ih _ hlen']
      have e : (h0 ++ [x]).length + t.length - 100 =
          h0.length + (x :: t).length - 100 := by
        simp only [List.length_append, List.length_cons, List.length_nil]
        omega
      rw [e]
      simp [List.append_assoc]

/-- The `Result` arm bumps `recv`, records the latency as the new previous
latency, and adds `|latency - previous|` to the jitter sum exactly when a
previous latency exists. -/
theorem applyResult_fields (st : PingStats) (seq lat ttl sz : Nat) :
    (applyResult st seq lat ttl sz).recv = st.recv + 1 ∧
    (applyResult st seq lat ttl sz).prev_latency = some lat ∧
    (applyResult st seq lat ttl sz).jitter_sum = st.jitter_sum +
      (match st.prev_latency with
       | some prev => if lat > prev then lat - prev else prev - lat
       | none => 0) := by
  cases h : st.prev_latency <;> simp [applyResult, addLog, h]

/-- Folding `Result` events adds one received reply per event and adds the
spec's sum of absolute consecutive differences to the jitter sum, the chain
starting at the current previous latency if one exists. -/
theorem applyResults_recv_jitter (ls : List (Nat × Nat × Nat × Nat)) :
    ∀ st : PingStats,
      (applyResults st ls).recv = st.recv + ls.length ∧
      (applyResults st ls).jitter_sum = st.jitter_sum +
        (match st.prev_latency with
         | some p => specJitterSum (p :: ls.map (fun t => t.2.1))
         | none => specJitterSum (ls.map (fun t => t.2.1))) := by
  induction ls with
  | nil =>
    intro st
    cases h : st.prev_latency <;> simp [applyResults, specJitterSum, h]
  | cons x t ih =>
    intro st
    obtain ⟨hr, hp, hj⟩ := applyResult_fields st x.1 x.2.1 x.2.2.1 x.2.2.2
    obtain ⟨ihr, ihj⟩ := ih (applyResult st x.1 x.2.1 x.2.2.1 x.2.2.2)
    have happ : applyResults st (x :: t) =
        applyResults (applyResult st x.1 x.2.1 x.2.2.1 x.2.2.2) t := by
      simp [applyResults]
    rw [hp] at ihj
    simp only [] at ihj
    refine ⟨by rw [happ, ihr, hr]; simp; omega, ?_⟩
    rw [happ, ihj, hj]
    cases h : st.prev_latency with
    | none => simp [specJitterSum]
    | some p =>
      simp only [List.map_cons, specJitterSum]
      omega

/-! ## Claim theorems -/

/-- C2, counterexample.  The claim says the shared completed counter is
incremented exactly once per dispatched host even when the cancellation flag
is set while the probe is in flight.  In the source the final increment
(scanner.rs line 191-193) is guarded by the abort flag: a probe that starts
with the flag unset, resolves a MAC, and then observes the flag set at the
post-ARP checkpoint returns without incrementing at all. -/
theorem probe_increment_skipped_on_midflight_abort :
    (probeTask false (some "00:11:22:33:44:55") true none false 42).2 = 0 := by
  decide

/-- C2, amended: each dispatched probe increments the shared completed
counter at most once, and exactly once precisely when the abort flag is
observed unset at the probe's entry checkpoint, at the post-ARP checkpoint
(reached only when a MAC was resolved), and at the final bookkeeping
checkpoint; when the flag is observed set in flight the increment is
skipped. -/
theorem probe_increment_at_most_once_iff_no_abort (a1 a2 a3 : Bool)
    (mac host : Option String) (ip : Nat) :
    (probeTask a1 mac a2 host a3 ip).2 ≤ 1 ∧
    ((probeTask a1 mac a2 host a3 ip).2 = 1 ↔
      a1 = false ∧ (mac.isSome → a2 = false) ∧ a3 = false) := by
  cases a1 <;> cases mac <;> cases a2 <;> cases a3 <;> simp [probeTask]

/-- C7 (code bug).  Evaluating the traffic sampler's rate computation
(traffic.rs lines 100-115) at a cumulative counter that decreased from 1000
to 800 between samples taken 1 s apart: the release-mode `u64` subtraction
wraps, and the displayed receive rate is `2^64 - 200` bytes/s — an enormous
wrapped value, neither clamped to 0 nor skipped (the snapshot is updated). -/
theorem traffic_rate_wraps_on_counter_decrease :
    (trafficRateStep
        { total_rx := 1000, total_tx := 1000, last_update := 0,
          rx_speed := 0, tx_speed := 0 } 800 800 1).2.1 = 2 ^ 64 - 200 ∧
    (trafficRateStep
        { total_rx := 1000, total_tx := 1000, last_update := 0,
          rx_speed := 0, tx_speed := 0 } 800 800 1).2.1 ≠ 0 := by
  have h : (trafficRateStep
      { total_rx := 1000, total_tx := 1000, last_update := 0,
        rx_speed := 0, tx_speed := 0 } 800 800 1).2.1 = 2 ^ 64 - 200 := by
    simp only [trafficRateStep, rateOf, u64wrapSub]
    norm_num
    rfl
  exact ⟨h, by rw [h]; norm_num⟩

/-- C8.  The ping latency history is a bounded FIFO ring of capacity 100
(ping.rs lines 158-161 and 166-172): after pushing any 105 samples into an
empty ring it holds exactly the most recent 100, oldest first; and both the
`Result` arm (pushing the received latency) and the `Timeout` arm (pushing
the sentinel 0) perform exactly this ring push. -/
theorem history_ring_keeps_last_100 (xs : List Nat) (h : xs.length = 105) :
    List.foldl pushHistory [] xs = xs.drop 5 ∧
    (List.foldl pushHistory [] xs).length = 100 ∧
    (∀ st seq lat ttl sz,
      (applyResult st seq lat ttl sz).history = pushHistory st.history lat) ∧
    (∀ st seq, (applyTimeout st seq).history = pushHistory st.history 0) := by
  have h1 : List.foldl pushHistory [] xs = xs.drop 5 := by
    have := pushHistory_foldl xs [] (by simp)
    simpa [h] using this
  refine ⟨h1, ?_, ?_, ?_⟩
  · rw [h1]
    simp [h]
  · intro st seq lat ttl sz
    simp [applyResult, addLog]
  · intro st seq
    simp [applyTimeout, addLog]

/-- C8, witness at the concrete sample sequence `0, 1, ..., 104`. -/
theorem history_ring_keeps_last_100_witness :
    (List.range 105).length = 105 ∧
    List.foldl pushHistory [] (List.range 105) = (List.range 105).drop 5 :=
  ⟨by simp, (history_ring_keeps_last_100 (List.range 105) (by simp)).1⟩

/-- C10.  While a ping session is running, every config-editing key handled
by `PingTool::handle_config_key` (ping.rs lines 209-227) — appending a
character, backspacing the target, and adjusting interval/timeout/packet
size — leaves the `PingConfig` unchanged: `edit_config_value` and
`adjust_numeric_config` return early when running, and the Backspace arm is
guarded by `!self.running`. -/
theorem config_frozen_while_running (k : PingKey) (s : PingToolState)
    (h : s.running = true) :
    (handleConfigKey k s).config = s.config := by
  have hnext : (nextConfig s).config = s.config := rfl
  have hprev : (prevConfig s).config = s.config := rfl
  have hadj : ∀ dir, adjustNumericConfig dir s = s := fun dir => by
    simp [adjustNumericConfig, h]
  have hedit : ∀ c, editConfigValue c s = s := fun c => by
    simp [editConfigValue, h]
  cases k with
  | down => exact hnext
  | up => exact hprev
  | left => rw [handleConfigKey, hadj]
  | right => rw [handleConfigKey, hadj]
  | backspace => simp [handleConfigKey, h]
  | char c =>
    simp only [handleConfigKey]
    split_ifs <;> simp [hnext, hprev, hadj, hedit]
  | other => rfl

/-- C10, witness: a character key pressed while running leaves the default
config unchanged. -/
theorem config_frozen_while_running_witness :
    ({ config := defaultPingConfig, running := true,
       configSelected := some 0 } : PingToolState).running = true ∧
    (handleConfigKey (PingKey.char 'x')
      { config := defaultPingConfig, running := true,
        configSelected := some 0 }).config = defaultPingConfig :=
  ⟨rfl, config_frozen_while_running (PingKey.char 'x') _ rfl⟩

/-- The visible result list after one tick: if anything was drained from the
channel, the sorted concatenation; otherwise the previous results.  The
status-transition half of `update` does not touch the result list. -/
theorem updateStep_results (s : ScannerModule) :
    (updateStep s).results =
      if s.channel.length > 0 then sortResults (s.results ++ s.channel)
      else s.results := by
  obtain ⟨ci, res, st, tot, cur, ab, ch⟩ := s
  simp only [updateStep]
  rcases st <;> rcases ab <;>
    by_cases hc : tot > 0 ∧ cur ≥ tot <;>
      simp [hc]

/-- C9.  For every sequence of `Result` events (given as
`(seq, latency, ttl, size)` tuples) processed from fresh statistics, the
jitter sum equals the sum of absolute differences of consecutive received
latencies, the received count equals the number of events, the displayed
average is `jitter_sum / (received - 1)` for more than one reply and 0
otherwise, and on the latencies `[100, 120, 90]` the jitter sum is 50 and
the average jitter is 25. -/
theorem jitter_sum_and_average (ls : List (Nat × Nat × Nat × Nat)) :
    (applyResults defaultPingStats ls).jitter_sum =
      specJitterSum (ls.map (fun t => t.2.1)) ∧
    (applyResults defaultPingStats ls).recv = ls.length ∧
    avgJitter (applyResults defaultPingStats ls) =
      (if (applyResults defaultPingStats ls).recv > 1 then
        (applyResults defaultPingStats ls).jitter_sum /
          ((applyResults defaultPingStats ls).recv - 1)
       else 0) ∧
    (applyResults defaultPingStats
      [(0, 100, 64, 32), (1, 120, 64, 32), (2, 90, 64, 32)]).jitter_sum = 50 ∧
    avgJitter (applyResults defaultPingStats
      [(0, 100, 64, 32), (1, 120, 64, 32), (2, 90, 64, 32)]) = 25 := by
  obtain ⟨hr, hj⟩ := applyResults_recv_jitter ls defaultPingStats
  refine ⟨?_, ?_, rfl, by decide, by decide⟩
  · rw [hj]
    simp [defaultPingStats]
  · rw [hr]
    simp [defaultPingStats]

set_option maxRecDepth 4000 in
/-- C1, counterexample.  The claim says a scan started with a malformed CIDR
immediately satisfies the completion condition and ends as `Done`.  On the
code, the `Done` transition (scanner.rs lines 218-221) is guarded by
`total_scan_count > 0`, which a malformed CIDR leaves at 0 on a fresh
module, so the tick after starting leaves the run in `Scanning`, not
`Done`.  The string `10.0.0.0/33` (prefix beyond 32) is reachable by CIDR
editing keys and does not parse. -/
theorem malformed_cidr_scan_not_done :
    (updateStep (startScan (freshScanner "10.0.0.0/33"))).status ≠
      ScanStatus.Done := by
  decide

/-- C1, amended: starting a scan on a fresh module with a malformed CIDR
leaves the total host count at zero, dispatches no probes, transitions the
run into `Scanning`, and keeps it there — the "completed ≥ total" check only
fires when the total is positive, so the run never reaches `Done`, with an
empty result set forever. -/
theorem malformed_cidr_scan_stays_scanning (c : String)
    (h : parseIpv4Network c = none) :
    (startScan (freshScanner c)).totalScanCount = 0 ∧
    (startScan (freshScanner c)).status = ScanStatus.Scanning ∧
    scanDispatch c = [] ∧
    ∀ n : Nat,
      (updateStep^[n] (startScan (freshScanner c))).status = ScanStatus.Scanning ∧
      (updateStep^[n] (startScan (freshScanner c))).results = [] := by
  have hs : startScan (freshScanner c) =
      { cidrInput := c, results := [], status := ScanStatus.Scanning,
        totalScanCount := 0, currentScanCount := 0, abortFlag := false,
        channel := [] } := by
    simp [startScan, freshScanner, h]
  have hfix : updateStep (startScan (freshScanner c)) = startScan (freshScanner c) := by
    rw [hs]
    rfl
  have hiter : ∀ n : Nat,
      updateStep^[n] (startScan (freshScanner c)) = startScan (freshScanner c) :=
    Function.iterate_fixed hfix
  refine ⟨by rw [hs], by rw [hs], by simp [scanDispatch, h], ?_⟩
  intro n
  rw [hiter n, hs]
  exact ⟨rfl, rfl⟩

set_option maxRecDepth 4000 in
/-- C1, witness for the amended statement at the malformed input
`10.0.0.0/33`: it does not parse, and after three ticks the run is still
`Scanning`. -/
theorem malformed_cidr_scan_stays_scanning_witness :
    parseIpv4Network "10.0.0.0/33" = none ∧
    (updateStep^[3] (startScan (freshScanner "10.0.0.0/33"))).status =
      ScanStatus.Scanning :=
  ⟨by decide,
   ((malformed_cidr_scan_stays_scanning "10.0.0.0/33" (by decide)).2.2.2 3).1⟩

set_option maxRecDepth 8000 in
/-- C3, counterexample.  The claim says a result produced by а probe of a
superseded run never appears in the new run's visible result set.  On the
code the channel is created once in `new()` and never recreated, and there
is no generation tag: here a probe of run 1 (scanning `10.0.0.0/24`, which
dispatches `10.0.0.1`) sends its result, the operator restarts the scan,
and the first tick of run 2 drains the stale run-1 result into the new
run's visible results. -/
theorem stale_result_visible_after_restart :
    (ScanResult.mk 167772161 "aa:bb:cc:dd:ee:ff" "").ip ∈
      scanDispatch "10.0.0.0/24" ∧
    (startScan (probeFinish (some (ScanResult.mk 167772161 "aa:bb:cc:dd:ee:ff" ""))
        (startScan (freshScanner "10.0.0.0/24")))).results = [] ∧
    ScanResult.mk 167772161 "aa:bb:cc:dd:ee:ff" "" ∈
      (updateStep (startScan (probeFinish
        (some (ScanResult.mk 167772161 "aa:bb:cc:dd:ee:ff" ""))
        (startScan (freshScanner "10.0.0.0/24"))))).results := by
  refine ⟨by decide, by decide, by decide⟩

/-- C3, amended: `start_scan` clears the previously collected results, but
the result channel is not recreated and results are not tagged with a run
generation: whatever a probe of a superseded run has sent (or will send)
into the channel is drained by a later `update` into the new run's visible
result set. -/
theorem restart_clears_results_but_keeps_channel (s : ScannerModule) :
    (startScan s).results = [] ∧
    (startScan s).channel = s.channel ∧
    ∀ r ∈ s.channel, r ∈ (updateStep (startScan s)).results := by
  have hr : (startScan s).results = [] := by
    cases hp : parseIpv4Network s.cidrInput <;> simp [startScan, hp]
  have hc : (startScan s).channel = s.channel := by
    cases hp : parseIpv4Network s.cidrInput <;> simp [startScan, hp]
  refine ⟨hr, hc, ?_⟩
  intro r hmem
  have hne : s.channel.length > 0 :=
    List.length_pos.mpr (List.ne_nil_of_mem hmem)
  have hres : (updateStep (startScan s)).results =
      sortResults ((startScan s).results ++ (startScan s).channel) := by
    rw [updateStep_results]
    rw [hc]
    exact if_pos hne
  rw [hres, hr, hc]
  simp [sortResults, List.mem_insertionSort, hmem]

/-- C3, witness for the amended statement: a concrete module whose channel
holds one undrained result; after restart the results are cleared, the
channel is untouched, and the next tick makes the stale result visible. -/
theorem restart_clears_results_but_keeps_channel_witness :
    ScanResult.mk 5 "m" "h" ∈
      (ScannerModule.mk "bad" [ScanResult.mk 1 "a" ""] ScanStatus.Done 9 9 false
        [ScanResult.mk 5 "m" "h"]).channel ∧
    ScanResult.mk 5 "m" "h" ∈
      (updateStep (startScan (ScannerModule.mk "bad" [ScanResult.mk 1 "a" ""]
        ScanStatus.Done 9 9 false [ScanResult.mk 5 "m" "h"]))).results :=
  ⟨by decide,
   (restart_clears_results_but_keeps_channel _).2.2 _ (by decide)⟩

set_option maxRecDepth 8000 in
/-- C5, counterexample.  The claim says the completed counter never exceeds
the total it was initialized against, even with probes of a superseded run
in flight.  On the code the counter `Arc` is shared by every run (scanner.rs
line 123 clones the same atomic, which is never replaced): run 1 scans
`10.0.0.0/24` (254 dispatched probes), the operator edits the CIDR to
`10.0.0.0/31` and restarts (total 2, counter reset to 0, abort flag reset to
false), and three still-in-flight run-1 probes then finish, driving the
counter to 3 > 2. -/
theorem stale_probes_push_counter_past_total :
    (scanDispatch "10.0.0.0/24").length = 254 ∧
    (probeFinish none (probeFinish none (probeFinish none
      (startScan (inputChar '1' (inputChar '3' (inputBackspace (inputBackspace
        (startScan (freshScanner "10.0.0.0/24")))))))))).totalScanCount = 2 ∧
    (probeFinish none (probeFinish none (probeFinish none
      (startScan (inputChar '1' (inputChar '3' (inputBackspace (inputBackspace
        (startScan (freshScanner "10.0.0.0/24")))))))))).currentScanCount = 3 := by
  refine ⟨by decide, by decide, by decide⟩

/-- Each run dispatches exactly as many probes as its precomputed total:
the enumeration of scanner.rs lines 141-149 and the count of lines 131-135
follow the same rule. -/
theorem scanIps_length (n : Ipv4Network) : (scanIps n).length = hostCount n := by
  rw [scanIps, hostCount]
  split
  · simp [iterList]
    omega
  · simp [iterList]

/-- C5, amended: within a single run — with no in-flight probes of a
superseded run sharing the counter — the completed counter cannot exceed
the precomputed total: the run dispatches exactly `hostCount` probes
(`scanIps_length`) and each dispatched probe increments the shared counter
at most once, so the sum of all increments is at most the total. -/
theorem single_run_counter_le_total (n : Ipv4Network) (incs : List Nat)
    (hlen : incs.length = (scanIps n).length) (h1 : ∀ x ∈ incs, x ≤ 1) :
    incs.sum ≤ hostCount n := by
  have hb := List.sum_le_card_nsmul incs 1 h1
  simp only [smul_eq_mul, mul_one] at hb
  calc incs.sum ≤ incs.length := hb
    _ = (scanIps n).length := hlen
    _ = hostCount n := scanIps_length n

/-- C5, witness for the amended statement: a `/31` run dispatches 2 probes;
with one increment per probe the counter reaches exactly the total. -/
theorem single_run_counter_le_total_witness :
    (List.replicate 2 1).length = (scanIps (Ipv4Network.mk 167772160 31)).length ∧
    (List.replicate 2 1).sum ≤ hostCount (Ipv4Network.mk 167772160 31) :=
  ⟨by decide,
   single_run_counter_le_total (Ipv4Network.mk 167772160 31)
     (List.replicate 2 1) (by decide) (by decide)⟩

instance : IsTotal ScanResult (fun a b => a.ip ≤ b.ip) :=
  ⟨fun a b => Nat.le_total a.ip b.ip⟩

instance : IsTrans ScanResult (fun a b => a.ip ≤ b.ip) :=
  ⟨fun _ _ _ hab hbc => Nat.le_trans hab hbc⟩

/-- The drained-and-sorted result list is sorted by IP. -/
theorem sortResults_sorted (l : List ScanResult) :
    (sortResults l).Pairwise (fun a b => a.ip ≤ b.ip) :=
  List.sorted_insertionSort _ l

/-- Sorting permutes, never invents or drops, results. -/
theorem sortResults_perm (l : List ScanResult) : (sortResults l).Perm l :=
  List.perm_insertionSort _ l

/-- Invariant of the tick-driven drain loop: starting from a sorted result
list, any sequence of drain cycles leaves the visible results sorted by IP
and equal, as a multiset, to the starting results plus everything drained. -/
theorem drainCycle_fold_sorted_perm (batches : List (List ScanResult)) :
    ∀ s : ScannerModule, s.results.Pairwise (fun a b => a.ip ≤ b.ip) →
      (batches.foldl drainCycle s).results.Pairwise (fun a b => a.ip ≤ b.ip) ∧
      (batches.foldl drainCycle s).results.Perm (s.results ++ batches.flatten) := by
  induction batches with
  | nil =>
    intro s hs
    refine ⟨hs, ?_⟩
    simp
  | cons b rest ih =>
    intro s hs
    have hres : (drainCycle s b).results =
        if b.length > 0 then sortResults (s.results ++ b) else s.results := by
      rw [drainCycle, updateStep_results]
    have hsorted : (drainCycle s b).results.Pairwise (fun a b => a.ip ≤ b.ip) := by
      rw [hres]
      split
      · exact sortResults_sorted _
      · exact hs
    have hperm : (drainCycle s b).results.Perm (s.results ++ b) := by
      rw [hres]
      split
      · exact sortResults_perm _
      · rename_i hb
        have hbnil : b = [] := by
          cases b with
          | nil => rfl
          | cons x t => simp at hb
        simp [hbnil]
    obtain ⟨h1, h2⟩ := ih (drainCycle s b) hsorted
    rw [List.foldl_cons]
    refine ⟨h1, ?_⟩
    have h3 : ((drainCycle s b).results ++ rest.flatten).Perm
        ((s.results ++ b) ++ rest.flatten) := hperm.append_right _
    have h4 : (s.results ++ b) ++ rest.flatten = s.results ++ (b :: rest).flatten := by
      simp
    exact h2.trans (h3.trans (List.Perm.of_eq h4))

/-- C6.  After any number of drain cycles of the scanner's `update` step
from a fresh module, provided the results drained across the run carry
pairwise-distinct IPs (which a single run guarantees: its dispatched
addresses are distinct and each probe emits at most one result), the
visible result sequence is sorted ascending by numeric IP and contains no
duplicate IPs. -/
theorem drain_results_sorted_nodup (c : String)
    (batches : List (List ScanResult))
    (h : (batches.flatten.map ScanResult.ip).Nodup) :
    (batches.foldl drainCycle (freshScanner c)).results.Pairwise
      (fun a b => a.ip ≤ b.ip) ∧
    ((batches.foldl drainCycle (freshScanner c)).results.map ScanResult.ip).Nodup := by
  obtain ⟨h1, h2⟩ :=
    drainCycle_fold_sorted_perm batches (freshScanner c) (by simp [freshScanner])
  refine ⟨h1, ?_⟩
  have hmap : ((batches.foldl drainCycle (freshScanner c)).results.map
      ScanResult.ip).Perm (batches.flatten.map ScanResult.ip) := by
    have := h2.map ScanResult.ip
    simpa [freshScanner] using this
  exact hmap.nodup_iff.mpr h

/-- C6, witness: three drain cycles delivering IPs 3, 1 and then 2 end with
the visible list sorted and duplicate-free. -/
theorem drain_results_sorted_nodup_witness :
    (([[ScanResult.mk 3 "" "", ScanResult.mk 1 "" ""], [],
       [ScanResult.mk 2 "" ""]].flatten.map ScanResult.ip).Nodup) ∧
    (([[ScanResult.mk 3 "" "", ScanResult.mk 1 "" ""], [],
       [ScanResult.mk 2 "" ""]].foldl drainCycle
        (freshScanner "192.168.1.0/24")).results.map ScanResult.ip).Nodup :=
  ⟨by decide,
   (drain_results_sorted_nodup "192.168.1.0/24"
     [[ScanResult.mk 3 "" "", ScanResult.mk 1 "" ""], [],
      [ScanResult.mk 2 "" ""]] (by decide)).2⟩

/-- Taking a segment of a unit-step range keeps it a range. -/
theorem take_range' (m s n : Nat) :
    (List.range' s n).take m = List.range' s (min m n) := by
  induction m generalizing s n with
  | zero => simp
  | succ m ih =>
    cases n with
    | zero => simp
    | succ k =>
      rw [List.range'_succ, List.take_succ_cons, ih, Nat.succ_min_succ,
        List.range'_succ]

/-- Membership in a unit-step range is an interval condition. -/
theorem mem_range'_one {a s n : Nat} :
    a ∈ List.range' s n ↔ s ≤ a ∧ a < s + n := by
  rw [List.mem_range']
  constructor
  · rintro ⟨i, hi, rfl⟩
    omega
  · intro h
    exact ⟨a - s, by omega, by omega⟩

/-- C4.  For every valid CIDR with prefix length below 31, the precomputed
total host count is `2^(32-p) - 2` and the dispatched addresses are exactly
the network's addresses with the network and broadcast addresses excluded;
for prefix length 31 or 32 the total is `2^(32-p)` and every address of the
network is dispatched. -/
theorem scan_enumeration_counts_and_dispatch (net : Ipv4Network) :
    (net.prefixLen < 31 →
      hostCount net = 2 ^ (32 - net.prefixLen) - 2 ∧
      ∀ a : Nat, a ∈ scanIps net ↔
        (a ∈ iterList net ∧ a ≠ networkAddr net ∧ a ≠ broadcastAddr net)) ∧
    (net.prefixLen = 31 ∨ net.prefixLen = 32 →
      hostCount net = 2 ^ (32 - net.prefixLen) ∧ scanIps net = iterList net) := by
  constructor
  · intro hp
    have hk : 2 ≤ 32 - net.prefixLen := by omega
    have hN : 4 ≤ sizeExact net := by
      have h22 : (2 : Nat) ^ 2 ≤ 2 ^ (32 - net.prefixLen) :=
        Nat.pow_le_pow_right (by norm_num) hk
      simpa [sizeExact] using h22
    refine ⟨by simp [hostCount, hp, sizeExact], ?_⟩
    intro a
    have e1 : scanIps net =
        List.range' (networkAddr net + 1) (sizeExact net - 2) := by
      rw [scanIps, if_pos hp, iterList]
      obtain ⟨m, hm⟩ : ∃ m, sizeExact net = m + 1 := ⟨sizeExact net - 1, by omega⟩
      rw [hm, List.range'_succ]
      simp only [List.drop_succ_cons, List.drop_zero]
      rw [take_range']
      congr 1
      omega
    rw [e1, iterList, broadcastAddr, mem_range'_one, mem_range'_one]
    omega
  · intro h31
    have hp : ¬ net.prefixLen < 31 := by rcases h31 with h | h <;> omega
    exact ⟨by simp [hostCount, hp, sizeExact], by simp [scanIps, hp]⟩

/-- C4, witness: on `10.0.0.0/24` the total is 254; on `10.0.0.0/32` every
address of the network is dispatched. -/
theorem scan_enumeration_counts_and_dispatch_witness :
    hostCount (Ipv4Network.mk 167772160 24) = 254 ∧
    scanIps (Ipv4Network.mk 167772160 32) = iterList (Ipv4Network.mk 167772160 32) := by
  have h1 := (scan_enumeration_counts_and_dispatch (Ipv4Network.mk 167772160 24)).1
    (by norm_num)
  have h2 := (scan_enumeration_counts_and_dispatch (Ipv4Network.mk 167772160 32)).2
    (Or.inr rfl)
  exact ⟨by rw [h1.1]; decide, h2.2⟩
